import Mathlib

/-!
# Verification of the race-ranker scoring and ranking engine

Shallow embedding of the scoring pipeline of the race-ranker repository.
Numbers are embedded as exact rationals; JS `Math.round` is half-up
rounding.  Strings that the code only parses (weights such as "9-7",
distances such as "2m4f", going descriptors) are embedded at the
granularity the parsers extract (stone/pound pairs, mile/furlong pairs,
an enumerated going scale); dates are embedded as epoch-day integers and
the ambient clock (`new Date()`) is an explicit `now` parameter.
Component `reason` strings are abstracted to constant tags (no claim
depends on their interpolated numeric parts); the one reason text a claim
inspects, the fewer-than-two-runners confidence reason, is kept verbatim.

Two variants of the engine exist in the repository: the client-side
`site/scorer.js` (namespace `Site`) and the serverless port
`netlify/functions/scoring.mjs` (namespace `Mjs`); they disagree in
several scoring details, which several claims turn on.
-/

/-- JS `Math.round`: round half toward positive infinity, `⌊x + 1/2⌋`. -/
def jround (x : ℚ) : ℤ := ⌊x + 1/2⌋

/-- `rd1` from `site/scorer.js`: round to one decimal place. -/
def rd1 (x : ℚ) : ℚ := (jround (x * 10) : ℚ) / 10

/-- `rd2` from `site/scorer.js`: round to two decimal places. -/
def rd2 (x : ℚ) : ℚ := (jround (x * 100) : ℚ) / 100

/-- Four-decimal rounding used for the market-confidence feature. -/
def rd4 (x : ℚ) : ℚ := (jround (x * 10000) : ℚ) / 10000

/-- Going descriptors: the keys of the `goingN` lookup table of
`site/scorer.js` plus a catch-all for strings not in the table. -/
inductive Going where
  | firm
  | goodToFirm
  | good
  | goodToSoft
  | yielding
  | soft
  | heavy
  | standard
  | standardToSlow
  | slow
  | unknown
deriving DecidableEq

/-- `goingN` of `site/scorer.js`: map a going descriptor to the 6-point
numeric scale; absent input or a string outside the table gives null. -/
def goingN : Option Going → Option ℚ
  | none => none
  | some g =>
    match g with
    | .firm => some 1
    | .goodToFirm => some 2
    | .good => some 3
    | .goodToSoft => some 4
    | .yielding => some 4
    | .soft => some 5
    | .heavy => some 6
    | .standard => some 3
    | .standardToSlow => some 4
    | .slow => some 5
    | .unknown => none

/-- `distF` of `site/scorer.js`: a distance string parses to a
miles/furlongs pair; the total in furlongs is returned when positive. -/
def distF : Option (ℕ × ℕ) → Option ℚ
  | none => none
  | some mf =>
    let t := mf.1 * 8 + mf.2
    if 0 < t then some (t : ℚ) else none

/-- `wtLbs` of `site/scorer.js`: a carried-weight string parses to a
stones/pounds pair, converted to pounds. -/
def wtLbs : Option (ℕ × ℕ) → Option ℚ
  | none => none
  | some sl => some ((sl.1 * 14 + sl.2 : ℕ) : ℚ)

/-- One historical outcome record of a runner (`recent_form` entry). -/
structure FormEntry where
  position : Option ℤ := none
  date : Option ℤ := none
  distance : Option (ℕ × ℕ) := none
  going : Option Going := none
  track : Option String := none
  sp_decimal : Option ℚ := none
deriving DecidableEq

/-- The `_market_expectation` feature object `site/scorer.js` writes onto
the runner record; the JS `{}` case is all-default fields. -/
structure MktFeatures where
  fav : ℚ := 0
  beatenFav : ℚ := 0
  jointFav : ℚ := 0
  conf : ℚ := 0
  lastSp : Option ℚ := none
  lastPos : Option ℤ := none
deriving DecidableEq

/-- An entrant record as supplied to the scorer.  `mkExp` embeds the
`_market_expectation` property that `site/scorer.js` assigns on the input
object; it is absent (`none`) on collaborator-supplied records. -/
structure Runner where
  runner_name : String := ""
  number : Option ℤ := none
  draw : Option ℤ := none
  age : Option ℤ := none
  weight : Option (ℕ × ℕ) := none
  official_rating : Option ℚ := none
  rpr : Option ℚ := none
  ts : Option ℚ := none
  trainer_rtf : Option ℚ := none
  days_since_last_run : Option ℤ := none
  course_winner : Option Bool := none
  distance_winner : Option Bool := none
  cd_winner : Option Bool := none
  jockey : Option String := none
  trainer : Option String := none
  odds_decimal : Option ℚ := none
  recent_form : List FormEntry := []
  mkExp : Option MktFeatures := none
deriving DecidableEq

/-- Event context (`meta`) for a race. -/
structure RaceMeta where
  track : Option String := none
  date : Option String := none
  off_time : Option String := none
  distance : Option (ℕ × ℕ) := none
  going : Option Going := none
  race_class : Option String := none
  race_name : Option String := none
  runners_count : Option ℤ := none
  prize : Option String := none
  surface : Option String := none
deriving DecidableEq

/-- The component names, in the deterministic `COMPONENT_ORDER` of
`site/scorer.js` (also the insertion order of `scoring.mjs`). -/
inductive CompName where
  | market
  | rating
  | form
  | suitability
  | freshness
  | cd_profile
  | connections
  | market_expectation
deriving DecidableEq

/-- The base weight table (identical in both variants). -/
def WEIGHTS : CompName → ℚ
  | .market => 0.30
  | .rating => 0.25
  | .form => 0.18
  | .suitability => 0.12
  | .freshness => 0.07
  | .cd_profile => 0.04
  | .connections => 0.03
  | .market_expectation => 0.01

/-- `COMPONENT_ORDER` of `site/scorer.js`. -/
def COMPONENT_ORDER : List CompName :=
  [.market, .rating, .form, .suitability, .freshness, .cd_profile,
   .connections, .market_expectation]

/-- A reported component score of a scored entrant. -/
structure Comp where
  name : CompName
  score : Option ℚ
  weight : ℚ
  weighted_score : ℚ
deriving DecidableEq

/-- Result of scoring one runner: total plus per-component breakdown. -/
structure RunnerScoring where
  total_score : ℚ
  components : List Comp
deriving DecidableEq

/-- JS string truthiness for optional string fields. -/
def truthyStr : Option String → Bool
  | none => false
  | some t => decide (t ≠ "")

/-- Lower-cased string with the JS `(s || "")` default. -/
def lowerOpt (s : Option String) : String := (s.getD "").toLower

/-- `Math.max.apply` over a list (used on nonempty lists only). -/
def maxQ : List ℚ → ℚ
  | [] => 0
  | x :: xs => xs.foldl max x

/-- `Math.min.apply` over a list (used on nonempty lists only). -/
def minQ : List ℚ → ℚ
  | [] => 0
  | x :: xs => xs.foldl min x

namespace Site

/-- `scoreMarket` of `site/scorer.js`: null unless odds exceed 1; else the
implied probability scaled by 1.4, clamped to [1,100], one-decimal. -/
def scoreMarket (r : Runner) : Option ℚ :=
  match r.odds_decimal with
  | none => none
  | some odds =>
    if odds ≤ 1 then none
    else some (rd1 (min 100 (max 1 (1 / odds * 100 * 1.4))))

/-- One block of the rating cascade of `site/scorer.js`: if this runner
has the rating source and at least two field entrants share it, normalise
within the field. -/
def tryRating (get : Runner → Option ℚ) (r : Runner) (all : List Runner) : Option ℚ :=
  match get r with
  | none => none
  | some v =>
    let vals := all.filterMap get
    if 2 ≤ vals.length then
      let mx := maxQ vals
      let mn := minQ vals
      let sp := if mx = mn then 1 else mx - mn
      some (rd1 (50 + 50 * (v - mn) / sp))
    else none

/-- `scoreRating` of `site/scorer.js`: RPR, then TS, then OR, then carried
weight as proxy. -/
def scoreRating (r : Runner) (all : List Runner) : Option ℚ :=
  match tryRating (fun x => x.rpr) r all with
  | some s => some s
  | none =>
    match tryRating (fun x => x.ts) r all with
    | some s => some s
    | none =>
      match tryRating (fun x => x.official_rating) r all with
      | some s => some s
      | none => tryRating (fun x => wtLbs x.weight) r all

/-- Position score of `site/scorer.js`: `max(0, 100 - (p-1)*15)`. -/
def positionScore (p : ℤ) : ℚ := max 0 (100 - ((p : ℚ) - 1) * 15)

/-- Recency weight `1/(1 + i*0.3)` shared by both variants. -/
def recencyWeight (i : ℕ) : ℚ := 1 / (1 + (i : ℚ) * 0.3)

/-- `scoreForm` of `site/scorer.js`: recency-weighted mean of position
scores over all form entries (indices taken in the full form list), +5
consistency bonus capped at 100. -/
def scoreForm (r : Runner) : Option ℚ :=
  match r.recent_form with
  | [] => none
  | form =>
    let pos := form.enum.filterMap fun pr => pr.2.position.map fun p => (p, pr.1)
    if pos.isEmpty then none
    else
      let tWeight := (pos.map fun x => recencyWeight x.2).sum
      let tw := (pos.map fun x => positionScore x.1 * recencyWeight x.2).sum
      if tWeight = 0 then none
      else
        let sc := tw / tWeight
        let allP := pos.map fun x => x.1
        let sc2 :=
          if (∀ p ∈ allP, p ≤ 3) ∧ 2 ≤ allP.length then min 100 (sc + 5) else sc
        some (rd1 sc2)

/-- Substring test standing for JS `rt.indexOf(tt) >= 0`. -/
def trackSub (tt rt : String) : Bool := decide (List.IsInfix tt.data rt.data)

/-- `scoreSuitability` of `site/scorer.js`: base 50 plus distance, going
and course match bonuses, clamped to [0,100]. -/
def scoreSuitability (r : Runner) (meta : RaceMeta) : Option ℚ :=
  match r.recent_form with
  | [] => none
  | form =>
    let td := distF meta.distance
    let tg := goingN meta.going
    let tt := lowerOpt meta.track
    if td = none ∧ tg = none then none
    else
      let fc := form.length
      let dm := (form.filter fun f =>
        match td, distF f.distance with
        | some a, some b => decide (|a - b| ≤ 1)
        | _, _ => false).length
      let gm := (form.filter fun f =>
        match tg, goingN f.going with
        | some a, some b => decide (|a - b| ≤ 1)
        | _, _ => false).length
      let cm := (form.filter fun f =>
        let rt := lowerOpt f.track
        decide (tt ≠ "") && decide (rt ≠ "") && trackSub tt rt).length
      if fc = 0 then none
      else
        let sc := 50 + (if td.isSome then ((dm : ℚ) / fc) * 20 else 0)
            + (if tg.isSome then ((gm : ℚ) / fc) * 20 else 0)
            + (if tt ≠ "" then ((cm : ℚ) / fc) * 10 else 0)
        some (rd1 (min 100 (max 0 sc)))

/-- `daysSince` of `site/scorer.js` at day granularity: difference to the
ambient clock when nonnegative, else null. -/
def daysSince (now dt : ℤ) : Option ℤ :=
  if 0 ≤ now - dt then some (now - dt) else none

/-- `scoreFreshness` of `site/scorer.js`: band values 55/68/100/80/58/30;
days are taken from the record or derived from the newest form date. -/
def scoreFreshness (now : ℤ) (r : Runner) : Option ℚ :=
  let days :=
    match r.days_since_last_run with
    | some d => some d
    | none =>
      match r.recent_form.head? with
      | some e =>
        match e.date with
        | some dt => daysSince now dt
        | none => none
      | none => none
  match days with
  | none => none
  | some d =>
    some (rd1 (if d < 7 then 55 else if d < 14 then 68 else if d ≤ 35 then 100
      else if d ≤ 60 then 80 else if d ≤ 120 then 58 else 30))

/-- `scoreCDProfile` of `site/scorer.js`: course/distance winner badges,
null when all three flags are absent. -/
def scoreCDProfile (r : Runner) : Option ℚ :=
  if r.course_winner = none ∧ r.distance_winner = none ∧ r.cd_winner = none then none
  else
    let hasC := r.course_winner = some true
    let hasD := r.distance_winner = some true
    let hasCD := r.cd_winner = some true
    let sc : ℚ :=
      if hasCD ∨ (hasC ∧ hasD) then 90
      else if hasC then 70
      else if hasD then 65
      else 50
    some (rd1 (min 100 sc))

/-- `scoreConnections` of `site/scorer.js`: trainer RTF through the linear
scale clamped to [15,95], neutral 50 without RTF, null without identity. -/
def scoreConnections (r : Runner) : Option ℚ :=
  if truthyStr r.jockey = false ∧ truthyStr r.trainer = false then none
  else
    match r.trainer_rtf with
    | some rtf =>
      if 0 < rtf then some (rd1 (min 95 (max 15 (20 + rtf * 2.3))))
      else some (rd1 50)
    | none => some (rd1 50)

/-- `lastRaceKey` of `site/scorer.js`: date plus lower-cased track. -/
def lastRaceKey (fl : FormEntry) : Option (ℤ × String) :=
  match fl.date with
  | none => none
  | some d => some (d, lowerOpt fl.track)

/-- Lower clip bound for last-race starting prices. -/
def MKT_ODDS_MIN : ℚ := 1.01

/-- Upper clip bound for last-race starting prices. -/
def MKT_ODDS_MAX : ℚ := 100

/-- Cohort of last-race starting prices sharing the same last-race key. -/
def cohortSps (key : ℤ × String) (all : List Runner) : List ℚ :=
  all.filterMap fun x =>
    match x.recent_form.head? with
    | none => none
    | some e =>
      if lastRaceKey e = some key then
        match e.sp_decimal with
        | some rsp => if 0 < rsp then some rsp else none
        | none => none
      else none

/-- `scoreMarketExpectation` of `site/scorer.js`.  The function also
assigns `runner._market_expectation`; the updated runner is returned as
the second component. -/
def scoreMarketExpectation (runner : Runner) (all : List Runner) :
    Option ℚ × Runner :=
  match runner.recent_form.head? with
  | none => (none, { runner with mkExp := some {} })
  | some lastRun =>
    let pos := lastRun.position
    let spDec := lastRun.sp_decimal
    let base : MktFeatures := { lastSp := spDec, lastPos := pos }
    match spDec with
    | none => (none, { runner with mkExp := some base })
    | some sp =>
      if sp ≤ 0 then (none, { runner with mkExp := some base })
      else
        match lastRaceKey lastRun with
        | none => (none, { runner with mkExp := some base })
        | some key =>
          let cohort0 := cohortSps key all
          let cohort := if cohort0.isEmpty then [sp] else cohort0
          let minSp := minQ cohort
          let atMin := (cohort.filter fun s => s = minSp).length
          let favF : ℚ := if sp = minSp then 1 else 0
          let jointF : ℚ := if 1 < atMin ∧ sp = minSp then 1 else 0
          let beatenF : ℚ := if favF = 1 ∧ pos ≠ none ∧ pos ≠ some 1 then 1 else 0
          let clipped := max MKT_ODDS_MIN (min MKT_ODDS_MAX sp)
          let confF := rd4 (1 / clipped)
          let features : MktFeatures :=
            { fav := favF, beatenFav := beatenF, jointFav := jointF, conf := confF,
              lastSp := spDec, lastPos := pos }
          let sc := 50 + favF * 15 + beatenF * 20 + jointF * (-5) + confF * 25
          (some (rd1 (max 0 (min 100 sc))), { runner with mkExp := some features })

end Site

namespace Site

/-- The per-component raw scores of one runner, as computed by the
`funcs` dispatch object in `scoreRunner` of `site/scorer.js`. -/
def rawScores (now : ℤ) (r : Runner) (all : List Runner) (meta : RaceMeta) :
    CompName → Option ℚ
  | .market => scoreMarket r
  | .rating => scoreRating r all
  | .form => scoreForm r
  | .suitability => scoreSuitability r meta
  | .freshness => scoreFreshness now r
  | .cd_profile => scoreCDProfile r
  | .connections => scoreConnections r
  | .market_expectation => (scoreMarketExpectation r all).1

/-- The names of the components with a non-null score (`avail`). -/
def availNames (now : ℤ) (r : Runner) (all : List Runner) (meta : RaceMeta) :
    List CompName :=
  COMPONENT_ORDER.filter fun n => (rawScores now r all meta n).isSome

/-- Sum of the base weights of the available components; the denominator
of `redistrib`. -/
def availWeightSum (now : ℤ) (r : Runner) (all : List Runner) (meta : RaceMeta) : ℚ :=
  ((availNames now r all meta).map WEIGHTS).sum

/-- `scoreRunner` of `site/scorer.js`.  Returns the scoring result and
the runner object as it stands after the call (the market-expectation
scorer writes a scratch property onto it). -/
def scoreRunner (now : ℤ) (r : Runner) (all : List Runner) (meta : RaceMeta) :
    RunnerScoring × Runner :=
  let raw := rawScores now r all meta
  let r2 := (scoreMarketExpectation r all).2
  let avail := availNames now r all meta
  if avail.isEmpty then ({ total_score := 0, components := [] }, r2)
  else
    let t := availWeightSum now r all meta
    let comps := COMPONENT_ORDER.map fun n =>
      match raw n with
      | some s =>
        { name := n, score := some s, weight := rd2 (WEIGHTS n / t),
          weighted_score := rd2 (s * (WEIGHTS n / t)) }
      | none => { name := n, score := none, weight := 0, weighted_score := 0 }
    let total := (avail.map fun n => (raw n).getD 0 * (WEIGHTS n / t)).sum
    ({ total_score := rd1 total, components := comps }, r2)

end Site

/-- A scored entrant as emitted by `scoreRace` of `site/scorer.js`. -/
structure ScoredRunner where
  runner_name : String := ""
  age : Option ℤ := none
  weight : Option (ℕ × ℕ) := none
  official_rating : Option ℚ := none
  rpr : Option ℚ := none
  ts : Option ℚ := none
  trainer_rtf : Option ℚ := none
  days_since_last_run : Option ℤ := none
  course_winner : Option Bool := none
  distance_winner : Option Bool := none
  cd_winner : Option Bool := none
  jockey : Option String := none
  trainer : Option String := none
  odds_decimal : Option ℚ := none
  recent_form : List FormEntry := []
  total_score : ℚ := 0
  components : List Comp := []
  last_race_fav : Bool := false
  last_race_beaten_fav : Bool := false
  last_race_joint_fav : Bool := false
  last_race_sp : Option ℚ := none
  rank : ℕ := 0
deriving DecidableEq, Inhabited

/-- An all-null display component (the default of `compList`). -/
def defaultComp (n : CompName) : Comp :=
  { name := n, score := none, weight := 0, weighted_score := 0 }

/-- `compList` of `site/scorer.js`: the component object expanded in
`COMPONENT_ORDER`, defaulting every component when the object is empty. -/
def compList (comps : List Comp) : List Comp :=
  if comps.isEmpty then COMPONENT_ORDER.map defaultComp else comps

namespace Site

/-- Build the scored-entrant record of `scoreRace` from the input runner,
its scoring result and its market-expectation features. -/
def mkScored (runner : Runner) (res : RunnerScoring) (me : MktFeatures) : ScoredRunner :=
  { runner_name := runner.runner_name
    age := runner.age
    weight := runner.weight
    official_rating := runner.official_rating
    rpr := runner.rpr
    ts := runner.ts
    trainer_rtf := runner.trainer_rtf
    days_since_last_run := runner.days_since_last_run
    course_winner := runner.course_winner
    distance_winner := runner.distance_winner
    cd_winner := runner.cd_winner
    jockey := runner.jockey
    trainer := runner.trainer
    odds_decimal := runner.odds_decimal
    recent_form := runner.recent_form
    total_score := res.total_score
    components := compList res.components
    last_race_fav := me.fav == 1
    last_race_beaten_fav := me.beatenFav == 1
    last_race_joint_fav := me.jointFav == 1
    last_race_sp := me.lastSp
    rank := 0 }

/-- The sort comparator of `scoreRace`: descending by total score. -/
def scoreDesc (a b : ScoredRunner) : Bool := decide (b.total_score ≤ a.total_score)

/-- The rank-assignment loop: position in the sorted list, starting at 1. -/
def assignRanks : ℕ → List ScoredRunner → List ScoredRunner
  | _, [] => []
  | i, r :: rs => { r with rank := i } :: assignRanks (i + 1) rs

/-- Confidence band. -/
inductive Band where
  | HIGH
  | MED
  | LOW
deriving DecidableEq

/-- Confidence assessment. -/
structure Confidence where
  band : Band
  margin : ℚ
  reasons : List String
deriving DecidableEq

/-- `computeConfidence` of `site/scorer.js`.  Reason strings keep the
constant parts of the messages (interpolated numbers abstracted away). -/
def computeConfidence (scored : List ScoredRunner) : Confidence :=
  if scored.length < 2 then
    { band := .LOW, margin := 0, reasons := ["Fewer than 2 runners scored"] }
  else
    match scored.mergeSort scoreDesc with
    | s0 :: s1 :: _ =>
      let margin := rd1 (s0.total_score - s1.total_score)
      let hasOdds := s0.odds_decimal.isSome
      let cp := (s0.components.filter fun c => c.score.isSome).length
      if hasOdds = true ∧ 5 ≤ cp ∧ 8 ≤ margin then
        { band := .HIGH, margin := margin,
          reasons := ["Margin between 1st and 2nd",
            "Scoring components available", "Odds data present"] }
      else if hasOdds = true ∧ (cp < 5 ∨ (4 ≤ margin ∧ margin < 8)) then
        { band := .MED, margin := margin,
          reasons := (if margin < 8 then ["Moderate margin"] else [])
            ++ (if cp < 5 then ["Few components scored"] else [])
            ++ ["Odds data present"] }
      else
        { band := .LOW, margin := margin,
          reasons := (if hasOdds = false then ["No odds data available"] else [])
            ++ (if margin ≤ 3 then ["Narrow margin"] else [])
            ++ (if cp ≤ 2 then ["Few components scored"] else []) }
    | _ => { band := .LOW, margin := 0, reasons := ["Fewer than 2 runners scored"] }

end Site

/-- Raw race input: meta plus entrant records. -/
structure RaceInput where
  race_id : String := ""
  meta : RaceMeta := {}
  runners : List Runner := []
deriving DecidableEq

/-- A pick: runner name, rank, score. -/
structure Pick where
  runner_name : String
  rank : ℕ
  score : ℚ
deriving DecidableEq

/-- Top pick and backups. -/
structure Picks where
  top_pick : Option Pick := none
  backup_1 : Option Pick := none
  backup_2 : Option Pick := none
deriving DecidableEq

/-- The output document of `scoreRace`. -/
structure RaceOutput where
  race_id : String
  meta : RaceMeta
  runners : List ScoredRunner
  picks : Picks
  confidence : Site.Confidence
deriving DecidableEq

namespace Site

/-- `scoreRace` of `site/scorer.js`: score every runner against the full
field, sort descending by total score, assign dense ranks 1..N, extract
picks and the confidence assessment. -/
def scoreRace (now : ℤ) (raceData : RaceInput) : RaceOutput :=
  let meta := raceData.meta
  let runners := raceData.runners
  let scored := runners.map fun runner =>
    let pr := scoreRunner now runner runners meta
    mkScored runner pr.1 (pr.2.mkExp.getD {})
  let ranked := assignRanks 1 (scored.mergeSort scoreDesc)
  let picks : Picks :=
    { top_pick := ranked[0]?.map fun r => { runner_name := r.runner_name, rank := 1, score := r.total_score }
      backup_1 := ranked[1]?.map fun r => { runner_name := r.runner_name, rank := 2, score := r.total_score }
      backup_2 := ranked[2]?.map fun r => { runner_name := r.runner_name, rank := 3, score := r.total_score } }
  { race_id := raceData.race_id
    meta := meta
    runners := ranked
    picks := picks
    confidence := computeConfidence ranked }

end Site

namespace Mjs

/-- The finishing-position table of `scoreForm` in
`netlify/functions/scoring.mjs`. -/
def posTable (pos : ℤ) : ℚ :=
  if pos = 1 then 100
  else if pos = 2 then 85
  else if pos = 3 then 72
  else if pos = 4 then 55
  else if pos = 5 then 40
  else if pos = 6 then 25
  else max 0 (100 - ((pos : ℚ) - 1) * 15)

/-- `scoreForm` of `netlify/functions/scoring.mjs`: last up-to-6
positions through the table, recency-weighted mean over the parseable
positions, +5 consistency bonus capped at 100, one-decimal rounding. -/
def scoreForm (runner : Runner) : Option ℚ :=
  let form := runner.recent_form
  if form.isEmpty then none
  else
    let positions := (form.take 6).filterMap fun f => f.position
    if positions.isEmpty then none
    else
      let pScores := positions.map posTable
      let pairs := pScores.enum
      let weightSum := (pairs.map fun x => Site.recencyWeight x.1).sum
      let weighted := (pairs.map fun x => x.2 * Site.recencyWeight x.1).sum
      let baseScore := if 0 < weightSum then weighted / weightSum else 50
      let allGood := positions.all fun p => decide (p ≤ 3) && decide (2 ≤ positions.length)
      let final := if allGood = true then min 100 (baseScore + 5) else baseScore
      some (rd1 final)

/-- `scoreFreshness` of `netlify/functions/scoring.mjs`: 80 in the
14-35-day window, `max(20, 80-(14-d)*2)` below it, `max(10,
80-(d-35)*0.5)` above it; no derivation from form history. -/
def scoreFreshness (runner : Runner) : Option ℚ :=
  match runner.days_since_last_run with
  | none => none
  | some days =>
    if 14 ≤ days ∧ days ≤ 35 then some 80
    else if days < 14 then some (rd1 (max 20 (80 - ((14 - days : ℤ) : ℚ) * 2)))
    else some (rd1 (max 10 (80 - ((days - 35 : ℤ) : ℚ) * 0.5)))

end Mjs

/-- Modelled from the spec claim wording for the form component: map the
last up-to-6 finishing positions through the table 1st=100, 2nd=85,
3rd=72, 4th=55, 5th=40, 6th=25, else `max(0,100-(pos-1)*15)`; weight
position i by `1/(1+i*0.3)` with i = 0 the most recent; take the weighted
mean; add a +5 bonus capped at 100 when there are at least 2 runs all
finishing 3rd or better; null when no parseable positions exist. -/
def specFormScore (runner : Runner) : Option ℚ :=
  let positions := (runner.recent_form.take 6).filterMap fun f => f.position
  if positions.isEmpty then none
  else
    let pairs := positions.enum
    let mean := (pairs.map fun x => Mjs.posTable x.2 * Site.recencyWeight x.1).sum /
      (pairs.map fun x => Site.recencyWeight x.1).sum
    some (if 2 ≤ positions.length ∧ ∀ p ∈ positions, p ≤ 3 then min 100 (mean + 5) else mean)

/-- Modelled from the spec claim wording for freshness bands: 55 for d<7,
68 for 7≤d<14, 100 for 14≤d≤35, 80 for 35<d≤60, 58 for 60<d≤120, 30 for
d>120. -/
def specFreshBand (d : ℤ) : ℚ :=
  if d < 7 then 55
  else if d < 14 then 68
  else if d ≤ 35 then 100
  else if d ≤ 60 then 80
  else if d ≤ 120 then 58
  else 30

/-- Days-since-last-activity as `site/scorer.js` determines it: the
record field when supplied, else derived from the most recent historical
date (null when negative or absent). -/
def effDays (now : ℤ) (r : Runner) : Option ℤ :=
  match r.days_since_last_run with
  | some d => some d
  | none =>
    match r.recent_form.head? with
    | some e =>
      match e.date with
      | some dt => Site.daysSince now dt
      | none => none
    | none => none

/-- Modelled from the spec claim wording for the market component:
`implied = 1/o`, `raw = implied*100*1.4`, clamped to [1,100]. -/
def specMarketScore (o : ℚ) : ℚ := min 100 (max 1 (1 / o * 100 * 1.4))

/-- Modelled from the spec claim wording for the race-normalised market
probability gap between rank-1 and rank-2: implied probabilities `1/o`
of all entrants with usable odds, re-normalised to sum to one; the gap is
the difference of the top two (in rank order). -/
def specProbGap (scored : List ScoredRunner) : Option ℚ :=
  let s := scored.mergeSort Site.scoreDesc
  let implied := s.filterMap fun r =>
    match r.odds_decimal with
    | some o => if 1 < o then some (1 / o) else none
    | none => none
  match implied with
  | p1 :: p2 :: _ => some ((p1 - p2) / implied.sum)
  | _ => none

/-- Accessor for the confidence inputs: the sorted list used by
`computeConfidence`. -/
def confSorted (scored : List ScoredRunner) : List ScoredRunner :=
  scored.mergeSort Site.scoreDesc

/-- The score margin between the top two, as `computeConfidence` rounds it. -/
def confMargin (scored : List ScoredRunner) : ℚ :=
  match confSorted scored with
  | s0 :: s1 :: _ => rd1 (s0.total_score - s1.total_score)
  | _ => 0

/-- Whether the rank-1 entrant carries market data. -/
def confHasOdds (scored : List ScoredRunner) : Bool :=
  match confSorted scored with
  | s0 :: _ => s0.odds_decimal.isSome
  | _ => false

/-- The rank-1 non-null component count. -/
def confCompCount (scored : List ScoredRunner) : ℕ :=
  match confSorted scored with
  | s0 :: _ => (s0.components.filter fun c => c.score.isSome).length
  | _ => 0

/-- Outcome of one fetch task as the orchestrators observe it: an HTTP
error response, a thrown network/timeout error, or a parsed payload. -/
inductive FetchOutcome where
  | httpError : FetchOutcome
  | networkThrow : FetchOutcome
  | payload : RaceInput → FetchOutcome

/-- `fetchAndScoreRace` of `site/script.js`: null on a non-OK response,
on a thrown error and on an empty runner list; otherwise the scored race. -/
def fetchAndScoreRace (now : ℤ) (t : FetchOutcome) : Option RaceOutput :=
  match t with
  | .httpError => none
  | .networkThrow => none
  | .payload raw => if raw.runners.isEmpty then none else some (Site.scoreRace now raw)

/-- The worker-pool accumulation loop of `startImport` in
`site/script.js`: every task is processed once and each non-null result
is appended to the accumulator. -/
def runPool (now : ℤ) (tasks : List FetchOutcome) : List RaceOutput :=
  tasks.foldl (fun scored t =>
    match fetchAndScoreRace now t with
    | some result => scored ++ [result]
    | none => scored) []

/-- The fatal message thrown by `startImport` when nothing was fetched. -/
def importFatalMsg : String := "Could not fetch any races. Try again later."

/-- `startImport` of `site/script.js`, orchestration core: run the pool
over all tasks and fail with the fatal error exactly when no task
produced a scored race. -/
def startImport (now : ℤ) (tasks : List FetchOutcome) : Except String (List RaceOutput) :=
  let scored := runPool now tasks
  if scored.isEmpty then Except.error importFatalMsg else Except.ok scored

/-- The response document of `netlify/functions/today.mjs`. -/
structure TodayResponse where
  date : String
  races : List RaceOutput
deriving DecidableEq

/-- The per-race loop of the `today.mjs` handler: failures and
zero-runner races are skipped with `continue`; successes accumulate. -/
def todayRaceLoop (now : ℤ) (tasks : List FetchOutcome) : List RaceOutput :=
  tasks.foldl (fun races t =>
    match fetchAndScoreRace now t with
    | some result => races ++ [result]
    | none => races) []

/-- The in-memory cache of `today.mjs`: date string to payload plus
`computedAt` timestamp (milliseconds). -/
def TodayCache := String → Option (TodayResponse × ℤ)

/-- An empty cache. -/
def emptyTodayCache : TodayCache := fun _ => none

/-- `CACHE_TTL` of `today.mjs`: 10 minutes in milliseconds. -/
def CACHE_TTL : ℤ := 10 * 60 * 1000

/-- `getCachedToday` of `today.mjs`: a hit requires an entry younger than
the TTL. -/
def getCachedToday (cache : TodayCache) (dateStr : String) (now : ℤ) :
    Option TodayResponse :=
  match cache dateStr with
  | some entry => if now - entry.2 < CACHE_TTL then some entry.1 else none
  | none => none

/-- `setCachedToday` of `today.mjs`: wholesale replacement of the entry
for the key. -/
def setCachedToday (cache : TodayCache) (dateStr : String) (data : TodayResponse)
    (now : ℤ) : TodayCache :=
  fun k => if k = dateStr then some (data, now) else cache k

/-- The `today.mjs` handler around the race loop: serve the cache on a
hit; otherwise run the loop, store the result (even when empty) and
return it.  The handler returns an ordinary (HTTP 200) document in every
case; per-race failures never escape it. -/
def todayHandler (now : ℤ) (dateStr : String) (tasks : List FetchOutcome)
    (cache : TodayCache) : TodayResponse × TodayCache :=
  match getCachedToday cache dateStr now with
  | some cached => (cached, cache)
  | none =>
    let result : TodayResponse := { date := dateStr, races := todayRaceLoop now tasks }
    (result, setCachedToday cache dateStr result now)


namespace Site

/-- The component entry built for name `n` in `scoreRunner` (non-empty
branch): redistributed weight and weighted score, two-decimal rounded. -/
def compEntry (now : ℤ) (r : Runner) (all : List Runner) (meta : RaceMeta)
    (n : CompName) : Comp :=
  match rawScores now r all meta n with
  | some s =>
    { name := n, score := some s, weight := rd2 (WEIGHTS n / availWeightSum now r all meta),
      weighted_score := rd2 (s * (WEIGHTS n / availWeightSum now r all meta)) }
  | none => { name := n, score := none, weight := 0, weighted_score := 0 }

end Site

/-- Sum of the reported weights of the non-null components. -/
def nonNullWeightSum (comps : List Comp) : ℚ :=
  ((comps.filter fun c => c.score.isSome).map fun c => c.weight).sum

/-- Data-model validity of a race input: every recorded finishing
position is at least 1. -/
abbrev validPositions (data : RaceInput) : Prop :=
  ∀ runner ∈ data.runners, ∀ e ∈ runner.recent_form,
    e.position.all (fun p => decide (1 ≤ p)) = true

/-- Fixture: an entrant with market, rating, form and suitability signals
and nothing else. -/
def runnerA : Runner :=
  { runner_name := "Alpha", odds_decimal := some 2, rpr := some 60,
    recent_form := [{ position := some 1 }] }

/-- Fixture: a second entrant carrying only a rating. -/
def runnerB : Runner := { runner_name := "Beta", rpr := some 50 }

/-- Fixture: event context with a parseable distance. -/
def meta1 : RaceMeta := { distance := some (0, 8) }

/-- Fixture: a two-entrant race. -/
def race1 : RaceInput := { race_id := "r1", meta := meta1, runners := [runnerA, runnerB] }

/-- Fixture: an entrant whose only datum is decimal odds 2.5. -/
def runnerM : Runner := { runner_name := "Solo", odds_decimal := some 2.5 }

/-- Fixture: an entrant whose only datum is decimal odds 3. -/
def runnerO3 : Runner := { runner_name := "Threes", odds_decimal := some 3 }

/-- Fixture: an entrant whose only form entry is a 3rd place. -/
def runnerP3 : Runner := { runner_name := "Third", recent_form := [{ position := some 3 }] }

/-- Fixture: an entrant 20 days after its last run. -/
def runnerD20 : Runner := { runner_name := "Rested", days_since_last_run := some 20 }

/-- Fixture: an entrant with a last-run record (position only). -/
def runnerMut : Runner := { runner_name := "Mut", recent_form := [{ position := some 2 }] }

/-- Fixture: five non-null component entries (for confidence inputs). -/
def comps5 : List Comp :=
  [{ name := .market, score := some 60, weight := 0.3, weighted_score := 18 },
   { name := .rating, score := some 60, weight := 0.25, weighted_score := 15 },
   { name := .form, score := some 60, weight := 0.18, weighted_score := 10.8 },
   { name := .suitability, score := some 60, weight := 0.12, weighted_score := 7.2 },
   { name := .freshness, score := some 60, weight := 0.07, weighted_score := 4.2 }]

/-- Fixture: scored entrant, odds 1.5, total 60, five components. -/
def srG1 : ScoredRunner :=
  { runner_name := "G1", odds_decimal := some 1.5, total_score := 60, components := comps5 }

/-- Fixture: scored entrant, odds 10, total 55. -/
def srG2 : ScoredRunner :=
  { runner_name := "G2", odds_decimal := some 10, total_score := 55 }

/-- Fixture: scored entrant, odds 2, total 70, five components. -/
def srH1 : ScoredRunner :=
  { runner_name := "H1", odds_decimal := some 2, total_score := 70, components := comps5 }

/-- Fixture: scored entrant, total 60. -/
def srH2 : ScoredRunner :=
  { runner_name := "H2", total_score := 60 }

/-- Fixture: a one-runner race payload for orchestrator tests. -/
def raceT : RaceInput := { race_id := "t", runners := [runnerB] }

/-- Fixture: a one-entrant race whose entrant carries only odds. -/
def raceM : RaceInput := { race_id := "m", runners := [runnerM] }

/-- Fixture: five fetch tasks of which the third throws a timeout. -/
def tasks5 : List FetchOutcome :=
  [.payload raceT, .payload raceT, .networkThrow, .payload raceT, .payload raceT]

/-- Fixture: five fetch tasks that all fail. -/
def failTasks5 : List FetchOutcome :=
  [.networkThrow, .httpError, .networkThrow, .httpError, .networkThrow]

/-- Fixture: a cached payload document. -/
def resp0 : TodayResponse := { date := "2026-02-21", races := [] }

/-- Fixture: a fresh payload document standing for a recomputation. -/
def resp1 : TodayResponse := { date := "2026-02-21", races := [] }

/-- Fixture: a cache holding `resp0` stored at time 0 for 2026-02-21. -/
def cache0 : TodayCache := setCachedToday emptyTodayCache "2026-02-21" resp0 0


theorem jround_le (x : ℚ) : (jround x : ℚ) ≤ x + 1/2 := by
  simpa [jround] using Int.floor_le (x + 1/2)

theorem sub_half_lt_jround (x : ℚ) : x - 1/2 < (jround x : ℚ) := by
  have h := Int.lt_floor_add_one (x + 1/2)
  unfold jround
  linarith

theorem abs_rd2_sub_le (x : ℚ) : |rd2 x - x| ≤ 1/200 := by
  unfold rd2
  have h1 := jround_le (x * 100)
  have h2 := sub_half_lt_jround (x * 100)
  rw [abs_le]
  constructor <;> linarith

theorem rd1_nonneg {x : ℚ} (h : 0 ≤ x) : 0 ≤ rd1 x := by
  unfold rd1
  have h0 : (0 : ℤ) ≤ jround (x * 10) := Int.le_floor.mpr (by push_cast; linarith)
  have h1 : (0 : ℚ) ≤ (jround (x * 10) : ℚ) := by exact_mod_cast h0
  linarith

theorem rd1_le_100 {x : ℚ} (h : x ≤ 100) : rd1 x ≤ 100 := by
  unfold rd1
  have h0 : jround (x * 10) < 1001 := Int.floor_lt.mpr (by push_cast; linarith)
  have h1 : (jround (x * 10) : ℚ) ≤ 1000 := by exact_mod_cast Int.lt_add_one_iff.mp h0
  linarith

theorem sum_map_div (l : List ℚ) (t : ℚ) :
    (l.map fun x => x / t).sum = l.sum / t := by
  induction l with
  | nil => simp
  | cons x xs ih => simp [ih, add_div]

theorem sum_pos_of_mem {l : List ℚ} (hne : l ≠ []) (h : ∀ x ∈ l, 0 < x) :
    0 < l.sum := by
  cases l with
  | nil => simp at hne
  | cons x xs =>
    have hx := h x (by simp)
    have hxs : 0 ≤ xs.sum := List.sum_nonneg fun y hy => (h y (by simp [hy])).le
    simp only [List.sum_cons]
    linarith

theorem sum_mul_nonneg {α : Type} (l : List α) (v w : α → ℚ)
    (hv : ∀ a ∈ l, 0 ≤ v a) (hw : ∀ a ∈ l, 0 ≤ w a) :
    0 ≤ (l.map fun a => v a * w a).sum :=
  List.sum_nonneg fun x hx => by
    obtain ⟨a, ha, rfl⟩ := List.mem_map.mp hx
    exact mul_nonneg (hv a ha) (hw a ha)

theorem sum_mul_le {α : Type} (v w : α → ℚ) (c : ℚ) :
    ∀ (l : List α), (∀ a ∈ l, v a ≤ c) → (∀ a ∈ l, 0 ≤ w a) →
      (l.map fun a => v a * w a).sum ≤ c * (l.map w).sum
  | [], _, _ => by simp
  | x :: xs, hv, hw => by
    simp only [List.map_cons, List.sum_cons]
    have h1 : v x * w x ≤ c * w x :=
      mul_le_mul_of_nonneg_right (hv x (by simp)) (hw x (by simp))
    have h2 := sum_mul_le v w c xs (fun a ha => hv a (by simp [ha]))
      (fun a ha => hw a (by simp [ha]))
    have h3 : c * (w x + (xs.map w).sum) = c * w x + c * (xs.map w).sum := by ring
    rw [h3]
    linarith

theorem sum_abs_bound {α : Type} (c : ℚ) :
    ∀ (l : List α) (f g : α → ℚ), (∀ a ∈ l, |f a - g a| ≤ c) →
      |(l.map f).sum - (l.map g).sum| ≤ l.length * c
  | [], _, _, _ => by simp
  | x :: xs, f, g, h => by
    simp only [List.map_cons, List.sum_cons, List.length_cons]
    have h1 := h x (by simp)
    have h2 := sum_abs_bound c xs f g (fun a ha => h a (by simp [ha]))
    have h3 : |f x + (xs.map f).sum - (g x + (xs.map g).sum)|
        ≤ |f x - g x| + |(xs.map f).sum - (xs.map g).sum| := by
      have := abs_add (f x - g x) ((xs.map f).sum - (xs.map g).sum)
      have he : f x + (xs.map f).sum - (g x + (xs.map g).sum)
          = (f x - g x) + ((xs.map f).sum - (xs.map g).sum) := by ring
      rw [he]
      exact this
    have h4 : ((xs.length + 1 : ℕ) : ℚ) * c = (xs.length : ℚ) * c + c := by
      push_cast
      ring
    rw [h4]
    linarith

theorem foldl_max_init : ∀ (l : List ℚ) (a : ℚ), a ≤ l.foldl max a
  | [], a => le_refl a
  | x :: xs, a => le_trans (le_max_left a x) (foldl_max_init xs (max a x))

theorem foldl_max_mem : ∀ (l : List ℚ) (a x : ℚ), x ∈ l → x ≤ l.foldl max a
  | [], _, x, hx => by simp at hx
  | y :: ys, a, x, hx => by
    simp only [List.foldl_cons]
    rcases List.mem_cons.mp hx with h | h
    · subst h
      exact le_trans (le_max_right a x) (foldl_max_init ys (max a x))
    · exact foldl_max_mem ys (max a y) x h

theorem le_maxQ {l : List ℚ} {x : ℚ} (hx : x ∈ l) : x ≤ maxQ l := by
  cases l with
  | nil => simp at hx
  | cons y ys =>
    unfold maxQ
    rcases List.mem_cons.mp hx with h | h
    · subst h
      exact foldl_max_init ys x
    · exact foldl_max_mem ys y x h

theorem foldl_min_init : ∀ (l : List ℚ) (a : ℚ), l.foldl min a ≤ a
  | [], a => le_refl a
  | x :: xs, a => le_trans (foldl_min_init xs (min a x)) (min_le_left a x)

theorem foldl_min_mem : ∀ (l : List ℚ) (a x : ℚ), x ∈ l → l.foldl min a ≤ x
  | [], _, x, hx => by simp at hx
  | y :: ys, a, x, hx => by
    simp only [List.foldl_cons]
    rcases List.mem_cons.mp hx with h | h
    · subst h
      exact le_trans (foldl_min_init ys (min a x)) (min_le_right a x)
    · exact foldl_min_mem ys (min a y) x h

theorem minQ_le {l : List ℚ} {x : ℚ} (hx : x ∈ l) : minQ l ≤ x := by
  cases l with
  | nil => simp at hx
  | cons y ys =>
    unfold minQ
    rcases List.mem_cons.mp hx with h | h
    · subst h
      exact foldl_min_init ys x
    · exact foldl_min_mem ys y x h

theorem snd_mem_of_mem_enum {α : Type} {l : List α} {x : ℕ × α} (hx : x ∈ l.enum) :
    x.2 ∈ l := by
  have h := List.mem_enum_iff_getElem?.mp hx
  exact List.getElem?_mem h

theorem scoreMarket_bound {r : Runner} {s : ℚ} (h : Site.scoreMarket r = some s) :
    0 ≤ s ∧ s ≤ 100 := by
  rw [Site.scoreMarket] at h
  cases ho : r.odds_decimal with
  | none => rw [ho] at h; simp at h
  | some o =>
    rw [ho] at h
    simp only [] at h
    split_ifs at h with h1
    have hb : 0 ≤ rd1 (min 100 (max 1 (1 / o * 100 * 1.4))) ∧
        rd1 (min 100 (max 1 (1 / o * 100 * 1.4))) ≤ 100 :=
      ⟨rd1_nonneg (le_min (by norm_num) (le_trans (by norm_num) (le_max_left 1 _))),
        rd1_le_100 (min_le_left _ _)⟩
    exact (Option.some.inj h) ▸ hb

theorem norm50_bound {v mn mx : ℚ} (h1 : mn ≤ v) (h2 : v ≤ mx) :
    0 ≤ rd1 (50 + 50 * (v - mn) / (if mx = mn then 1 else mx - mn)) ∧
      rd1 (50 + 50 * (v - mn) / (if mx = mn then 1 else mx - mn)) ≤ 100 := by
  by_cases heq : mx = mn
  · have hv : v = mn := le_antisymm (heq ▸ h2) h1
    rw [if_pos heq, hv]
    simp only [sub_self, mul_zero, zero_div, add_zero]
    exact ⟨rd1_nonneg (by norm_num), rd1_le_100 (by norm_num)⟩
  · rw [if_neg heq]
    have hlt : mn < mx := lt_of_le_of_ne (le_trans h1 h2) fun hc => heq hc.symm
    have hpos : 0 < mx - mn := sub_pos.mpr hlt
    have hq1 : 0 ≤ (v - mn) / (mx - mn) := div_nonneg (by linarith) hpos.le
    have hq2 : (v - mn) / (mx - mn) ≤ 1 := (div_le_one hpos).mpr (by linarith)
    have he : 50 + 50 * (v - mn) / (mx - mn) = 50 + 50 * ((v - mn) / (mx - mn)) := by
      ring
    rw [he]
    exact ⟨rd1_nonneg (by linarith), rd1_le_100 (by linarith)⟩

theorem tryRating_bound {get : Runner → Option ℚ} {r : Runner} {all : List Runner}
    {s : ℚ} (hr : r ∈ all) (h : Site.tryRating get r all = some s) :
    0 ≤ s ∧ s ≤ 100 := by
  rw [Site.tryRating] at h
  cases hv : get r with
  | none => rw [hv] at h; simp at h
  | some v =>
    rw [hv] at h
    simp only [] at h
    by_cases hlen : 2 ≤ (all.filterMap get).length
    · rw [if_pos hlen] at h
      have hvmem : v ∈ all.filterMap get := List.mem_filterMap.mpr ⟨r, hr, hv⟩
      have hb := norm50_bound (minQ_le hvmem) (le_maxQ hvmem)
      exact (Option.some.inj h) ▸ hb
    · rw [if_neg hlen] at h
      simp at h

theorem scoreRating_bound {r : Runner} {all : List Runner} {s : ℚ} (hr : r ∈ all)
    (h : Site.scoreRating r all = some s) : 0 ≤ s ∧ s ≤ 100 := by
  rw [Site.scoreRating] at h
  cases h1 : Site.tryRating (fun x => x.rpr) r all with
  | some t =>
    rw [h1] at h
    exact (Option.some.inj h) ▸ tryRating_bound hr h1
  | none =>
    rw [h1] at h
    simp only [] at h
    cases h2 : Site.tryRating (fun x => x.ts) r all with
    | some t =>
      rw [h2] at h
      exact (Option.some.inj h) ▸ tryRating_bound hr h2
    | none =>
      rw [h2] at h
      simp only [] at h
      cases h3 : Site.tryRating (fun x => x.official_rating) r all with
      | some t =>
        rw [h3] at h
        exact (Option.some.inj h) ▸ tryRating_bound hr h3
      | none =>
        rw [h3] at h
        simp only [] at h
        exact tryRating_bound hr h

theorem positionScore_nonneg (p : ℤ) : 0 ≤ Site.positionScore p :=
  le_max_left 0 _

theorem positionScore_le_100 {p : ℤ} (hp : 1 ≤ p) : Site.positionScore p ≤ 100 := by
  unfold Site.positionScore
  have h1 : (1 : ℚ) ≤ (p : ℚ) := by exact_mod_cast hp
  have h2 : (100 : ℚ) - ((p : ℚ) - 1) * 15 ≤ 100 := by nlinarith
  exact max_le (by norm_num) h2

theorem recencyWeight_pos (i : ℕ) : 0 < Site.recencyWeight i := by
  unfold Site.recencyWeight
  have h : (0 : ℚ) ≤ (i : ℚ) := Nat.cast_nonneg i
  have h2 : (0 : ℚ) < 1 + (i : ℚ) * 0.3 := by nlinarith
  positivity

set_option maxHeartbeats 1000000 in
theorem formScore_bound (pos : List (ℤ × ℕ)) (hwf2 : ∀ x ∈ pos, (1:ℤ) ≤ x.1)
    (hzero : ¬(pos.map fun x => Site.recencyWeight x.2).sum = 0) :
    0 ≤ (pos.map fun x => Site.positionScore x.1 * Site.recencyWeight x.2).sum /
        (pos.map fun x => Site.recencyWeight x.2).sum ∧
      (pos.map fun x => Site.positionScore x.1 * Site.recencyWeight x.2).sum /
        (pos.map fun x => Site.recencyWeight x.2).sum ≤ 100 := by
  have htwnn : 0 ≤ (pos.map fun x => Site.recencyWeight x.2).sum :=
    List.sum_nonneg fun y hy => by
      obtain ⟨a, _, rfl⟩ := List.mem_map.mp hy
      exact (recencyWeight_pos a.2).le
  have hpos0 : (0:ℚ) < (pos.map fun x => Site.recencyWeight x.2).sum :=
    lt_of_le_of_ne htwnn (Ne.symm hzero)
  have htwup : (pos.map fun x => Site.positionScore x.1 * Site.recencyWeight x.2).sum
      ≤ 100 * (pos.map fun x => Site.recencyWeight x.2).sum :=
    sum_mul_le (fun x : ℤ × ℕ => Site.positionScore x.1)
      (fun x : ℤ × ℕ => Site.recencyWeight x.2) 100 pos
      (fun a ha => positionScore_le_100 (hwf2 a ha))
      (fun a _ => (recencyWeight_pos a.2).le)
  have htwdn : 0 ≤ (pos.map fun x => Site.positionScore x.1 * Site.recencyWeight x.2).sum :=
    sum_mul_nonneg pos (fun x : ℤ × ℕ => Site.positionScore x.1)
      (fun x : ℤ × ℕ => Site.recencyWeight x.2)
      (fun a _ => positionScore_nonneg a.1) (fun a _ => (recencyWeight_pos a.2).le)
  exact ⟨div_nonneg htwdn htwnn, (div_le_iff hpos0).mpr (by linarith)⟩

theorem scoreForm_bound {r : Runner} {s : ℚ}
    (hwf : ∀ e ∈ r.recent_form, ∀ p, e.position = some p → 1 ≤ p)
    (h : Site.scoreForm r = some s) : 0 ≤ s ∧ s ≤ 100 := by
  rw [Site.scoreForm] at h
  rcases hform : r.recent_form with _ | ⟨e0, rest⟩
  · rw [hform] at h
    simp at h
  · rw [hform] at h
    simp only [] at h
    rw [hform] at hwf
    have hwf2 : ∀ x ∈ (e0 :: rest).enum.filterMap
        (fun pr => pr.2.position.map fun p => (p, pr.1)), (1:ℤ) ≤ x.1 := by
      intro x hx
      obtain ⟨pr, hpr, hmap⟩ := List.mem_filterMap.mp hx
      obtain ⟨p, hp, hxp⟩ := Option.map_eq_some'.mp hmap
      have hmem := snd_mem_of_mem_enum hpr
      have := hwf pr.2 hmem p hp
      rw [← hxp]
      exact this
    split_ifs at h with hempty hzero hbonus
    · have hb := formScore_bound _ hwf2 hzero
      have hs := Option.some.inj h
      refine hs ▸ ⟨rd1_nonneg ?_, rd1_le_100 ?_⟩
      · exact le_min (by norm_num) (by linarith [hb.1])
      · exact min_le_left _ _
    · have hb := formScore_bound _ hwf2 hzero
      have hs := Option.some.inj h
      exact hs ▸ ⟨rd1_nonneg hb.1, rd1_le_100 hb.2⟩

theorem scoreSuitability_bound {r : Runner} {meta : RaceMeta} {s : ℚ}
    (h : Site.scoreSuitability r meta = some s) : 0 ≤ s ∧ s ≤ 100 := by
  rw [Site.scoreSuitability] at h
  rcases hform : r.recent_form with _ | ⟨e0, rest⟩
  · rw [hform] at h
    simp at h
  · rw [hform] at h
    simp only [] at h
    split_ifs at h
    all_goals
      refine (Option.some.inj h) ▸ ⟨rd1_nonneg ?_, rd1_le_100 ?_⟩
    all_goals
      first
      | exact le_min (by norm_num) (le_max_left 0 _)
      | exact min_le_left _ _

theorem jround_int (n : ℤ) : jround (n : ℚ) = n := by
  unfold jround
  rw [Int.floor_eq_iff]
  constructor
  · linarith
  · linarith

theorem rd1_const (c : ℚ) (n : ℤ) (h1 : c * 10 = (n : ℚ)) (h2 : (n : ℚ) / 10 = c) :
    rd1 c = c := by
  unfold rd1
  rw [h1, jround_int, h2]

theorem rd1_freshBand (d : ℤ) :
    rd1 (if d < 7 then (55:ℚ) else if d < 14 then 68 else if d ≤ 35 then 100
      else if d ≤ 60 then 80 else if d ≤ 120 then 58 else 30) = specFreshBand d := by
  unfold specFreshBand
  split_ifs
  · exact rd1_const 55 550 (by norm_num) (by norm_num)
  · exact rd1_const 68 680 (by norm_num) (by norm_num)
  · exact rd1_const 100 1000 (by norm_num) (by norm_num)
  · exact rd1_const 80 800 (by norm_num) (by norm_num)
  · exact rd1_const 58 580 (by norm_num) (by norm_num)
  · exact rd1_const 30 300 (by norm_num) (by norm_num)

theorem specFreshBand_bound (d : ℤ) : 0 ≤ specFreshBand d ∧ specFreshBand d ≤ 100 := by
  unfold specFreshBand
  split_ifs <;> norm_num

theorem scoreFreshness_eq (now : ℤ) (r : Runner) :
    Site.scoreFreshness now r = (effDays now r).map specFreshBand := by
  rw [Site.scoreFreshness, effDays]
  rcases hd : r.days_since_last_run with _ | d
  · rcases hh : r.recent_form.head? with _ | e
    · simp only [hd, hh]
      rfl
    · rcases hdt : e.date with _ | dt
      · simp only [hd, hh, hdt]
        rfl
      · simp only [hd, hh, hdt]
        rcases hds : Site.daysSince now dt with _ | dd
        · simp only [hds]
          rfl
        · simp only [hds, Option.map_some']
          congr 1
          exact rd1_freshBand dd
  · simp only [hd, Option.map_some']
    congr 1
    exact rd1_freshBand d

theorem scoreFreshness_bound {now : ℤ} {r : Runner} {s : ℚ}
    (h : Site.scoreFreshness now r = some s) : 0 ≤ s ∧ s ≤ 100 := by
  rw [scoreFreshness_eq] at h
  rcases hd : effDays now r with _ | d
  · rw [hd] at h
    simp at h
  · rw [hd] at h
    simp only [Option.map_some'] at h
    exact (Option.some.inj h) ▸ specFreshBand_bound d

theorem scoreCDProfile_bound {r : Runner} {s : ℚ}
    (h : Site.scoreCDProfile r = some s) : 0 ≤ s ∧ s ≤ 100 := by
  rw [Site.scoreCDProfile] at h
  simp only [] at h
  split_ifs at h
  all_goals
    refine (Option.some.inj h) ▸ ⟨rd1_nonneg ?_, rd1_le_100 ?_⟩
  all_goals norm_num

theorem scoreConnections_bound {r : Runner} {s : ℚ}
    (h : Site.scoreConnections r = some s) : 0 ≤ s ∧ s ≤ 100 := by
  rw [Site.scoreConnections] at h
  rcases hrtf : r.trainer_rtf with _ | rtf
  · rw [hrtf] at h
    split_ifs at h
    exact (Option.some.inj h) ▸ ⟨rd1_nonneg (by norm_num), rd1_le_100 (by norm_num)⟩
  · rw [hrtf] at h
    simp only [] at h
    split_ifs at h
    · exact (Option.some.inj h) ▸
        ⟨rd1_nonneg (le_min (by norm_num) (le_trans (by norm_num) (le_max_left 15 _))),
          rd1_le_100 (le_trans (min_le_left _ _) (by norm_num))⟩
    · exact (Option.some.inj h) ▸ ⟨rd1_nonneg (by norm_num), rd1_le_100 (by norm_num)⟩

theorem scoreMarketExpectation_shape (r : Runner) (all : List Runner) :
    (Site.scoreMarketExpectation r all).1 = none ∨
      ∃ x, (Site.scoreMarketExpectation r all).1 = some (rd1 (max 0 (min 100 x))) := by
  rw [Site.scoreMarketExpectation]
  rcases r.recent_form.head? with _ | lastRun
  · exact Or.inl rfl
  · simp only []
    rcases lastRun.sp_decimal with _ | sp
    · exact Or.inl rfl
    · simp only []
      split_ifs with hsp0
      · exact Or.inl rfl
      · rcases Site.lastRaceKey lastRun with _ | key
        · exact Or.inl rfl
        · exact Or.inr ⟨_, rfl⟩

theorem scoreMarketExpectation_bound {r : Runner} {all : List Runner} {s : ℚ}
    (h : (Site.scoreMarketExpectation r all).1 = some s) : 0 ≤ s ∧ s ≤ 100 := by
  rcases scoreMarketExpectation_shape r all with hsh | ⟨x, hsh⟩
  · rw [hsh] at h
    simp at h
  · rw [hsh] at h
    have hs := Option.some.inj h
    refine hs ▸ ⟨rd1_nonneg (le_max_left 0 _), rd1_le_100 ?_⟩
    exact max_le (by norm_num) (min_le_left _ _)

theorem WEIGHTS_pos (n : CompName) : 0 < WEIGHTS n := by
  cases n <;> norm_num [WEIGHTS]

theorem availWeightSum_pos {now : ℤ} {r : Runner} {all : List Runner} {meta : RaceMeta}
    (hne : ¬(Site.availNames now r all meta).isEmpty = true) :
    0 < Site.availWeightSum now r all meta := by
  unfold Site.availWeightSum
  apply sum_pos_of_mem
  · intro hmap
    rcases hl : Site.availNames now r all meta with _ | ⟨a, as⟩
    · rw [hl] at hne
      simp at hne
    · rw [hl] at hmap
      simp at hmap
  · intro x hx
    obtain ⟨n, _, rfl⟩ := List.mem_map.mp hx
    exact WEIGHTS_pos n

theorem redistrib_sum_one {now : ℤ} {r : Runner} {all : List Runner} {meta : RaceMeta}
    (hne : ¬(Site.availNames now r all meta).isEmpty = true) :
    ((Site.availNames now r all meta).map fun n =>
      WEIGHTS n / Site.availWeightSum now r all meta).sum = 1 := by
  have ht := availWeightSum_pos hne
  have hmm : ((Site.availNames now r all meta).map fun n =>
      WEIGHTS n / Site.availWeightSum now r all meta)
      = (((Site.availNames now r all meta).map WEIGHTS).map fun x =>
        x / Site.availWeightSum now r all meta) := by
    rw [List.map_map]
    rfl
  rw [hmm, sum_map_div]
  exact div_self (ne_of_gt ht)

theorem rawScores_bound {now : ℤ} {r : Runner} {all : List Runner} {meta : RaceMeta}
    {n : CompName} {s : ℚ} (hr : r ∈ all)
    (hwf : ∀ e ∈ r.recent_form, ∀ p, e.position = some p → 1 ≤ p)
    (h : Site.rawScores now r all meta n = some s) : 0 ≤ s ∧ s ≤ 100 := by
  cases n
  · exact scoreMarket_bound h
  · exact scoreRating_bound hr h
  · exact scoreForm_bound hwf h
  · exact scoreSuitability_bound h
  · exact scoreFreshness_bound h
  · exact scoreCDProfile_bound h
  · exact scoreConnections_bound h
  · exact scoreMarketExpectation_bound h

theorem convex_sum_bound (f : CompName → Option ℚ) (t : ℚ) (ht : 0 < t) :
    ∀ (l : List CompName), (∀ n ∈ l, ∀ s, f n = some s → 0 ≤ s ∧ s ≤ 100) →
      (∀ n ∈ l, (f n).isSome = true) →
      0 ≤ (l.map fun n => (f n).getD 0 * (WEIGHTS n / t)).sum ∧
        (l.map fun n => (f n).getD 0 * (WEIGHTS n / t)).sum
          ≤ 100 * (l.map fun n => WEIGHTS n / t).sum
  | [], _, _ => by simp
  | n0 :: ns, hb, hs => by
    simp only [List.map_cons, List.sum_cons]
    have ih := convex_sum_bound f t ht ns (fun n hn => hb n (by simp [hn]))
      (fun n hn => hs n (by simp [hn]))
    have hw : 0 < WEIGHTS n0 / t := div_pos (WEIGHTS_pos n0) ht
    obtain ⟨s0, hs0⟩ := Option.isSome_iff_exists.mp (hs n0 (by simp))
    have hb0 := hb n0 (by simp) s0 hs0
    rw [hs0]
    simp only [Option.getD_some]
    constructor
    · have hm := mul_nonneg hb0.1 hw.le
      linarith [ih.1]
    · have h1 : s0 * (WEIGHTS n0 / t) ≤ 100 * (WEIGHTS n0 / t) :=
        mul_le_mul_of_nonneg_right hb0.2 hw.le
      have h2 : (100:ℚ) * (WEIGHTS n0 / t + (ns.map fun n => WEIGHTS n / t).sum)
          = 100 * (WEIGHTS n0 / t) + 100 * (ns.map fun n => WEIGHTS n / t).sum := by
        ring
      rw [h2]
      linarith [ih.2]

theorem scoreRunner_total_bound {now : ℤ} {r : Runner} {all : List Runner}
    {meta : RaceMeta} (hr : r ∈ all)
    (hwf : ∀ e ∈ r.recent_form, ∀ p, e.position = some p → 1 ≤ p) :
    0 ≤ (Site.scoreRunner now r all meta).1.total_score ∧
      (Site.scoreRunner now r all meta).1.total_score ≤ 100 := by
  rw [Site.scoreRunner]
  simp only []
  split_ifs with hav
  · norm_num
  · have hconv := convex_sum_bound (Site.rawScores now r all meta)
      (Site.availWeightSum now r all meta) (availWeightSum_pos hav)
      (Site.availNames now r all meta)
      (fun n _ s hfn => rawScores_bound hr hwf hfn)
      (fun n hn => (List.mem_filter.mp hn).2)
    have hone := redistrib_sum_one hav
    constructor
    · exact rd1_nonneg hconv.1
    · apply rd1_le_100
      have h100 : (100:ℚ) * ((Site.availNames now r all meta).map fun n =>
          WEIGHTS n / Site.availWeightSum now r all meta).sum = 100 := by
        rw [hone]
        ring
      calc ((Site.availNames now r all meta).map fun n =>
            (Site.rawScores now r all meta n).getD 0 *
              (WEIGHTS n / Site.availWeightSum now r all meta)).sum
          ≤ 100 * ((Site.availNames now r all meta).map fun n =>
            WEIGHTS n / Site.availWeightSum now r all meta).sum := hconv.2
        _ = 100 := h100

theorem scoreRace_runners (now : ℤ) (data : RaceInput) :
    (Site.scoreRace now data).runners =
      Site.assignRanks 1 ((data.runners.map fun runner =>
        Site.mkScored runner (Site.scoreRunner now runner data.runners data.meta).1
          ((Site.scoreRunner now runner data.runners data.meta).2.mkExp.getD {})).mergeSort
            Site.scoreDesc) := rfl

theorem assignRanks_length : ∀ (i : ℕ) (l : List ScoredRunner),
    (Site.assignRanks i l).length = l.length
  | _, [] => rfl
  | i, _ :: rs => by
    rw [Site.assignRanks]
    simp only [List.length_cons]
    rw [assignRanks_length (i + 1) rs]

theorem assignRanks_map_rank : ∀ (i : ℕ) (l : List ScoredRunner),
    (Site.assignRanks i l).map (fun r => r.rank) = List.range' i l.length
  | _, [] => rfl
  | i, r :: rs => by
    rw [Site.assignRanks]
    simp only [List.map_cons, List.length_cons, List.range'_succ]
    exact congrArg (List.cons i) (assignRanks_map_rank (i + 1) rs)

theorem assignRanks_mem_ex : ∀ {i : ℕ} {l : List ScoredRunner} {x : ScoredRunner},
    x ∈ Site.assignRanks i l →
    ∃ y ∈ l, x.total_score = y.total_score ∧ x.components = y.components
  | _, [], x, h => by simp [Site.assignRanks] at h
  | i, r :: rs, x, h => by
    rw [Site.assignRanks] at h
    rcases List.mem_cons.mp h with h1 | h1
    · exact ⟨r, by simp, by rw [h1], by rw [h1]⟩
    · obtain ⟨y, hy, hxy⟩ := assignRanks_mem_ex h1
      exact ⟨y, by simp [hy], hxy⟩

theorem assignRanks_pairwise : ∀ (i : ℕ) (l : List ScoredRunner),
    l.Pairwise (fun a b => b.total_score ≤ a.total_score) →
    (Site.assignRanks i l).Pairwise (fun a b => b.total_score ≤ a.total_score)
  | _, [], _ => by simp [Site.assignRanks]
  | i, r :: rs, h => by
    rw [Site.assignRanks]
    rcases List.pairwise_cons.mp h with ⟨hr, hrs⟩
    refine List.pairwise_cons.mpr ⟨?_, assignRanks_pairwise (i + 1) rs hrs⟩
    intro b hb
    obtain ⟨y, hy, hby⟩ := assignRanks_mem_ex hb
    calc b.total_score = y.total_score := hby.1
      _ ≤ r.total_score := hr y hy

theorem scoreDesc_trans (a b c : ScoredRunner)
    (h1 : Site.scoreDesc a b) (h2 : Site.scoreDesc b c) : Site.scoreDesc a c := by
  simp only [Site.scoreDesc, decide_eq_true_eq] at h1 h2 ⊢
  exact le_trans h2 h1

theorem scoreDesc_total (a b : ScoredRunner) :
    Site.scoreDesc a b || Site.scoreDesc b a := by
  simp only [Site.scoreDesc]
  rcases le_total a.total_score b.total_score with h | h
  · simp [h]
  · simp [h]

theorem scoreRunner_empty {now : ℤ} {r : Runner} {all : List Runner} {meta : RaceMeta}
    (h : (Site.availNames now r all meta).isEmpty = true) :
    (Site.scoreRunner now r all meta).1 = { total_score := 0, components := [] } := by
  rw [Site.scoreRunner]
  simp only [h, if_true]

theorem scoreRunner_full {now : ℤ} {r : Runner} {all : List Runner} {meta : RaceMeta}
    (h : ¬(Site.availNames now r all meta).isEmpty = true) :
    (Site.scoreRunner now r all meta).1 =
      { total_score := rd1 (((Site.availNames now r all meta).map fun n =>
          (Site.rawScores now r all meta n).getD 0 *
            (WEIGHTS n / Site.availWeightSum now r all meta)).sum),
        components := COMPONENT_ORDER.map (Site.compEntry now r all meta) } := by
  rw [Site.scoreRunner]
  simp only []
  rw [if_neg h]
  rfl

theorem enumFrom_map_comm {α β : Type} (f : α → β) : ∀ (n : ℕ) (l : List α),
    (l.map f).enumFrom n = (l.enumFrom n).map (fun p => (p.1, f p.2))
  | _, [] => rfl
  | n, x :: xs => by
    simp only [List.map_cons, List.enumFrom]
    exact congrArg _ (enumFrom_map_comm f (n + 1) xs)

theorem enum_map_comm {α β : Type} (f : α → β) (l : List α) :
    (l.map f).enum = l.enum.map (fun p => (p.1, f p.2)) :=
  enumFrom_map_comm f 0 l

theorem foldl_collect (f : FetchOutcome → Option RaceOutput) :
    ∀ (tasks : List FetchOutcome) (acc : List RaceOutput),
      tasks.foldl (fun scored t =>
        match f t with
        | some result => scored ++ [result]
        | none => scored) acc = acc ++ tasks.filterMap f
  | [], acc => by simp
  | t :: ts, acc => by
    simp only [List.foldl_cons, List.filterMap_cons]
    cases hf : f t with
    | none => rw [foldl_collect f ts acc]
    | some result =>
      rw [foldl_collect f ts (acc ++ [result])]
      simp

theorem runPool_eq (now : ℤ) (tasks : List FetchOutcome) :
    runPool now tasks = tasks.filterMap (fetchAndScoreRace now) := by
  unfold runPool
  rw [foldl_collect]
  simp

theorem todayRaceLoop_eq (now : ℤ) (tasks : List FetchOutcome) :
    todayRaceLoop now tasks = tasks.filterMap (fetchAndScoreRace now) := by
  unfold todayRaceLoop
  rw [foldl_collect]
  simp

theorem validPositions_spec {data : RaceInput} (h : validPositions data) :
    ∀ runner ∈ data.runners, ∀ e ∈ runner.recent_form, ∀ p, e.position = some p → 1 ≤ p := by
  intro runner hr e he p hp
  have h2 := h runner hr e he
  rw [hp] at h2
  simpa using h2

theorem mktexp_preserves (r : Runner) (all : List Runner) :
    (Site.scoreMarketExpectation r all).2 =
      { r with mkExp := (Site.scoreMarketExpectation r all).2.mkExp } := by
  rw [Site.scoreMarketExpectation]
  rcases r.recent_form.head? with _ | lastRun
  · rfl
  · simp only []
    rcases lastRun.sp_decimal with _ | sp
    · rfl
    · simp only []
      split_ifs
      · rfl
      · rcases Site.lastRaceKey lastRun with _ | key
        · rfl
        · rfl

/-- Claim C7 (confirmed): for every ranked batch of N entrants, `scoreRace`
sorts descending by `total_score` and the assigned ranks are exactly
1..N with no gaps or duplicates, each rank used once, in sorted order. -/
theorem C7_rank_permutation (now : ℤ) (data : RaceInput) :
    ((Site.scoreRace now data).runners.map fun r => r.rank) =
      List.range' 1 data.runners.length ∧
    (Site.scoreRace now data).runners.Pairwise
      (fun a b => b.total_score ≤ a.total_score) ∧
    (Site.scoreRace now data).runners.length = data.runners.length := by
  rw [scoreRace_runners]
  refine ⟨?_, ?_, ?_⟩
  · rw [assignRanks_map_rank]
    congr 1
    rw [List.length_mergeSort, List.length_map]
  · apply assignRanks_pairwise
    have hs := @List.sorted_mergeSort ScoredRunner Site.scoreDesc
      (fun a b c h1 h2 => scoreDesc_trans a b c h1 h2)
      (fun a b => scoreDesc_total a b)
      (data.runners.map fun runner =>
        Site.mkScored runner (Site.scoreRunner now runner data.runners data.meta).1
          ((Site.scoreRunner now runner data.runners data.meta).2.mkExp.getD {}))
    exact hs.imp fun h => by
      simpa [Site.scoreDesc, decide_eq_true_eq] using h
  · rw [assignRanks_length, List.length_mergeSort, List.length_map]

/-- Claim C9 (confirmed): for every scored entrant, under any combination
of present or absent input attributes (with recorded finishing positions
at least 1, per the data model), `total_score` lies in [0,100]. -/
theorem C9_total_score_bounds (now : ℤ) (data : RaceInput) (hwf : validPositions data) :
    ∀ r ∈ (Site.scoreRace now data).runners,
      0 ≤ r.total_score ∧ r.total_score ≤ 100 := by
  intro r hr
  rw [scoreRace_runners] at hr
  obtain ⟨y, hy, hty, _⟩ := assignRanks_mem_ex hr
  rw [List.mem_mergeSort] at hy
  obtain ⟨runner, hrunner, rfl⟩ := List.mem_map.mp hy
  rw [hty]
  exact scoreRunner_total_bound hrunner (validPositions_spec hwf runner hrunner)

set_option maxRecDepth 8000 in
theorem C9_total_score_bounds_witness :
    0 ≤ ((Site.scoreRace 0 raceM).runners.headI).total_score ∧
      ((Site.scoreRace 0 raceM).runners.headI).total_score ≤ 100 :=
  C9_total_score_bounds 0 raceM (by decide) _ (by with_unfolding_all decide)

/-- Claim C6 (corrected): the site variant (`site/scorer.js`) scores the
freshness bands exactly as stated (55/68/100/80/58/30 over the claimed
day ranges), deriving days from the most recent historical date when not
supplied, and null without any last-activity date; the server variant
(`scoring.mjs`) disagrees (see the counterexample). -/
theorem C6_freshness_bands (now : ℤ) (r : Runner) :
    Site.scoreFreshness now r = (effDays now r).map specFreshBand :=
  scoreFreshness_eq now r

theorem C6_cex :
    Mjs.scoreFreshness runnerD20 = some 80 ∧ specFreshBand 20 = 100 ∧
      (80 : ℚ) ≠ 100 := by
  refine ⟨?_, ?_, ?_⟩ <;> with_unfolding_all decide

theorem C5_cex :
    Site.scoreForm runnerP3 = some 70 ∧ Mjs.posTable 3 = 72 ∧ (70 : ℚ) ≠ 72 := by
  refine ⟨?_, ?_, ?_⟩ <;> with_unfolding_all decide

/-- Claim C10 (corrected): the scoring pipeline leaves every field of the
supplied runner record unchanged except the `_market_expectation` scratch
property that `scoreMarketExpectation` writes onto it. -/
theorem C10_no_other_mutation (now : ℤ) (r : Runner) (all : List Runner)
    (meta : RaceMeta) :
    (Site.scoreRunner now r all meta).2 =
      { r with mkExp := (Site.scoreRunner now r all meta).2.mkExp } := by
  rw [Site.scoreRunner]
  simp only []
  split_ifs
  · exact mktexp_preserves r all
  · exact mktexp_preserves r all

theorem C10_cex : (Site.scoreMarketExpectation runnerMut [runnerMut]).2 ≠ runnerMut := by
  with_unfolding_all decide

/-- Claim C2 (corrected): for usable odds the site market score is the
claimed clamp formula rounded to one decimal (the site variant treats any
odds above 1 as usable); null for absent or non-positive-margin odds; and
the odds-2.5 scenario holds exactly: market 56.0 at redistributed weight
1.0, total 56.0, every other component null. -/
theorem C2_market_characterisation :
    (∀ r : Runner, ∀ o : ℚ, r.odds_decimal = some o → 1 < o →
      Site.scoreMarket r = some (rd1 (specMarketScore o))) ∧
    (∀ r : Runner, ∀ o : ℚ, r.odds_decimal = some o → o ≤ 1 →
      Site.scoreMarket r = none) ∧
    (∀ r : Runner, r.odds_decimal = none → Site.scoreMarket r = none) ∧
    (Site.scoreRunner 0 runnerM [runnerM] {}).1.total_score = 56 ∧
    (Site.scoreRunner 0 runnerM [runnerM] {}).1.components =
      [{ name := .market, score := some 56, weight := 1, weighted_score := 56 },
       defaultComp .rating, defaultComp .form, defaultComp .suitability,
       defaultComp .freshness, defaultComp .cd_profile, defaultComp .connections,
       defaultComp .market_expectation] := by
  refine ⟨?_, ?_, ?_, ?_, ?_⟩
  · intro r o ho h1
    rw [Site.scoreMarket, ho]
    simp only []
    rw [if_neg (not_le.mpr h1)]
    rfl
  · intro r o ho h1
    rw [Site.scoreMarket, ho]
    simp only []
    rw [if_pos h1]
  · intro r ho
    rw [Site.scoreMarket, ho]
  · with_unfolding_all decide
  · with_unfolding_all decide

theorem C2_market_witness :
    Site.scoreMarket runnerM = some (rd1 (specMarketScore 2.5)) ∧
      rd1 (specMarketScore 2.5) = 56 :=
  ⟨C2_market_characterisation.1 runnerM 2.5 rfl (by norm_num),
    by with_unfolding_all decide⟩

theorem C2_cex :
    Site.scoreMarket runnerO3 = some (467/10) ∧ specMarketScore 3 = 140/3 ∧
      (467/10 : ℚ) ≠ 140/3 := by
  refine ⟨?_, ?_, ?_⟩ <;> with_unfolding_all decide

/-- Claim C8 (confirmed): a cache lookup within the 10-minute TTL serves
the stored payload without recomputation; a lookup at or past the TTL
misses, the handler recomputes, and the new payload wholly replaces the
entry for that key. -/
theorem C8_cache_ttl (cache : TodayCache) (d : String) (p : TodayResponse)
    (t0 nowT : ℤ) (tasks : List FetchOutcome) :
    (cache d = some (p, t0) → nowT - t0 < CACHE_TTL →
      todayHandler nowT d tasks cache = (p, cache)) ∧
    (cache d = some (p, t0) → CACHE_TTL ≤ nowT - t0 →
      todayHandler nowT d tasks cache =
        ({ date := d, races := todayRaceLoop nowT tasks },
          setCachedToday cache d { date := d, races := todayRaceLoop nowT tasks } nowT) ∧
      setCachedToday cache d { date := d, races := todayRaceLoop nowT tasks } nowT d =
        some ({ date := d, races := todayRaceLoop nowT tasks }, nowT)) := by
  constructor
  · intro hce hfresh
    have hg : getCachedToday cache d nowT = some p := by
      rw [getCachedToday, hce]
      simp only []
      rw [if_pos hfresh]
    rw [todayHandler, hg]
  · intro hce hstale
    have hg : getCachedToday cache d nowT = none := by
      rw [getCachedToday, hce]
      simp only []
      rw [if_neg (not_lt.mpr hstale)]
    constructor
    · rw [todayHandler, hg]
    · rw [setCachedToday]
      simp

theorem C8_cache_ttl_witness :
    cache0 "2026-02-21" = some (resp0, 0) ∧ (300000 : ℤ) - 0 < CACHE_TTL ∧
      todayHandler 300000 "2026-02-21" [] cache0 = (resp0, cache0) := by
  refine ⟨?_, ?_, ?_⟩
  · with_unfolding_all decide
  · with_unfolding_all decide
  · exact (C8_cache_ttl cache0 "2026-02-21" resp0 0 300000 []).1
      (by with_unfolding_all decide) (by with_unfolding_all decide)

/-- Claim C4 (corrected): the site import orchestrator keeps exactly the
successfully retrieved-and-scored results, drops each individual failure
silently, and raises the fatal error precisely when zero tasks succeed;
the scenario of five tasks with one timeout yields exactly four scored
events.  (The server-side `today.mjs` loop drops failures the same way
but returns an empty success instead of an error; see counterexample.) -/
theorem C4_orchestrator (now : ℤ) :
    (∀ tasks : List FetchOutcome,
      runPool now tasks = tasks.filterMap (fetchAndScoreRace now)) ∧
    (∀ tasks : List FetchOutcome, ∀ res : List RaceOutput,
      startImport now tasks = Except.ok res →
        res = tasks.filterMap (fetchAndScoreRace now) ∧ res ≠ []) ∧
    (∀ tasks : List FetchOutcome,
      startImport now tasks = Except.error importFatalMsg ↔
        ∀ t ∈ tasks, fetchAndScoreRace now t = none) ∧
    (tasks5.filterMap (fetchAndScoreRace now)).length = 4 ∧
    startImport now tasks5 = Except.ok (tasks5.filterMap (fetchAndScoreRace now)) := by
  have hlen4 : (tasks5.filterMap (fetchAndScoreRace now)).length = 4 := by
    simp [tasks5, fetchAndScoreRace, raceT, List.filterMap_cons]
  refine ⟨runPool_eq now, ?_, ?_, hlen4, ?_⟩
  · intro tasks res h
    rw [startImport] at h
    split_ifs at h with he
    have hres := Except.ok.inj h
    rw [runPool_eq] at hres he
    constructor
    · exact hres.symm
    · intro hnil
      rw [← hres] at hnil
      rw [hnil] at he
      simp at he
  · intro tasks
    rw [startImport]
    split_ifs with he
    · rw [runPool_eq] at he
      simp only [List.isEmpty_iff] at he
      rw [List.filterMap_eq_nil_iff] at he
      constructor
      · intro _
        exact he
      · intro _
        rfl
    · rw [runPool_eq] at he
      constructor
      · intro hcontra
        exact absurd hcontra (by simp)
      · intro hall
        exfalso
        apply he
        simp only [List.isEmpty_iff]
        rw [List.filterMap_eq_nil_iff]
        exact hall
  · rw [startImport]
    rw [if_neg]
    · rw [runPool_eq]
    · rw [runPool_eq]
      intro habs
      rw [List.isEmpty_iff] at habs
      rw [habs] at hlen4
      simp at hlen4

theorem C4_orchestrator_witness :
    startImport 0 failTasks5 = Except.error importFatalMsg :=
  ((C4_orchestrator 0).2.2.1 failTasks5).mpr (by with_unfolding_all decide)

theorem C4_cex :
    failTasks5.filterMap (fetchAndScoreRace 0) = [] ∧
      (todayHandler 0 "2026-02-21" failTasks5 emptyTodayCache).1 =
        { date := "2026-02-21", races := [] } := by
  constructor <;> with_unfolding_all decide

/-- Claim C3 (corrected): with fewer than 2 scored entrants the
classifier returns LOW with the insufficient-entrants reason; with at
least 2, the site classifier assigns HIGH exactly when the rank-1 entrant
has market data AND the total-score margin is at least 8 AND at least 5
of the 8 components are non-null (majority).  No probability-gap
disjunction exists in this variant (see counterexample). -/
theorem C3_confidence_bands (scored : List ScoredRunner) :
    (scored.length < 2 →
      Site.computeConfidence scored =
        { band := .LOW, margin := 0, reasons := ["Fewer than 2 runners scored"] }) ∧
    (2 ≤ scored.length →
      ((Site.computeConfidence scored).band = Site.Band.HIGH ↔
        (confHasOdds scored = true ∧ 5 ≤ confCompCount scored ∧
          8 ≤ confMargin scored))) := by
  constructor
  · intro h
    rw [Site.computeConfidence, if_pos h]
  · intro h2
    have hnl : ¬scored.length < 2 := not_lt.mpr h2
    have hlen : 2 ≤ (scored.mergeSort Site.scoreDesc).length := by
      rw [List.length_mergeSort]
      exact h2
    rcases hms : scored.mergeSort Site.scoreDesc with _ | ⟨s0, t⟩
    · rw [hms] at hlen
      simp at hlen
    · rcases t with _ | ⟨s1, rest⟩
      · rw [hms] at hlen
        simp at hlen
      · have hodds : confHasOdds scored = s0.odds_decimal.isSome := by
          rw [confHasOdds, confSorted, hms]
        have hcp : confCompCount scored =
            (s0.components.filter fun c => c.score.isSome).length := by
          rw [confCompCount, confSorted, hms]
        have hmg : confMargin scored = rd1 (s0.total_score - s1.total_score) := by
          rw [confMargin, confSorted, hms]
        rw [Site.computeConfidence, if_neg hnl, hms]
        simp only []
        split_ifs with hc1 hc2
        · constructor
          · intro _
            rw [hodds, hcp, hmg]
            exact hc1
          · intro _
            trivial
        · constructor
          · intro hb
            first
            | exact hb.elim
            | exact absurd hb (by simp)
          · intro hrhs
            rw [hodds, hcp, hmg] at hrhs
            exact absurd hrhs hc1
        · constructor
          · intro hb
            first
            | exact hb.elim
            | exact absurd hb (by simp)
          · intro hrhs
            rw [hodds, hcp, hmg] at hrhs
            exact absurd hrhs hc1

set_option maxRecDepth 8000 in
theorem C3_confidence_bands_witness :
    (Site.computeConfidence [srH1, srH2]).band = Site.Band.HIGH := by
  have hmsH : List.mergeSort [srH1, srH2] Site.scoreDesc = [srH1, srH2] :=
    List.mergeSort_of_sorted (by with_unfolding_all decide)
  have h := (C3_confidence_bands [srH1, srH2]).2 (by decide)
  apply h.mpr
  refine ⟨?_, ?_, ?_⟩
  · rw [confHasOdds, confSorted, hmsH]
    with_unfolding_all decide
  · rw [confCompCount, confSorted, hmsH]
    with_unfolding_all decide
  · rw [confMargin, confSorted, hmsH]
    with_unfolding_all decide

set_option maxRecDepth 8000 in
theorem C3_cex :
    (Site.computeConfidence [srG1, srG2]).band = Site.Band.MED ∧
      Site.Band.MED ≠ Site.Band.HIGH ∧
      confHasOdds [srG1, srG2] = true ∧
      5 ≤ confCompCount [srG1, srG2] ∧
      specProbGap [srG1, srG2] = some (17/23) ∧
      (8/100 : ℚ) ≤ 17/23 := by
  have hmsG : List.mergeSort [srG1, srG2] Site.scoreDesc = [srG1, srG2] :=
    List.mergeSort_of_sorted (by with_unfolding_all decide)
  refine ⟨?_, ?_, ?_, ?_, ?_, ?_⟩
  · rw [Site.computeConfidence, if_neg (by decide), hmsG]
    with_unfolding_all decide
  · decide
  · rw [confHasOdds, confSorted, hmsG]
    with_unfolding_all decide
  · rw [confCompCount, confSorted, hmsG]
    with_unfolding_all decide
  · rw [specProbGap, hmsG]
    with_unfolding_all decide
  · with_unfolding_all decide

/-- Claim C5 (corrected): the server variant (`scoring.mjs`) implements
the claimed form algorithm exactly, up to the one-decimal rounding of the
returned score: position table, recency weights over the parseable
positions of the last up-to-6 runs, weighted mean, +5 bonus capped at 100
for at least 2 runs all 3rd or better, null without parseable positions.
The site variant deviates (see counterexample: a 3rd place scores 70). -/
theorem C5_form_table (r : Runner) :
    Mjs.scoreForm r = (specFormScore r).map rd1 := by
  simp only [Mjs.scoreForm, specFormScore]
  by_cases hempty : r.recent_form.isEmpty
  · rw [if_pos hempty]
    have hnil : r.recent_form = [] := List.isEmpty_iff.mp hempty
    simp [hnil]
  · rw [if_neg hempty]
    by_cases hpos : ((r.recent_form.take 6).filterMap fun f => f.position).isEmpty
    · rw [if_pos hpos, if_pos hpos]
      rfl
    · rw [if_neg hpos, if_neg hpos]
      set positions := (r.recent_form.take 6).filterMap fun f => f.position with hposdef
      have hne : positions ≠ [] := by
        intro hnil
        rw [hnil] at hpos
        exact hpos rfl
      have henum : (positions.map Mjs.posTable).enum
          = positions.enum.map (fun p => (p.1, Mjs.posTable p.2)) :=
        enum_map_comm Mjs.posTable positions
      have hW : ((positions.map Mjs.posTable).enum.map fun x => Site.recencyWeight x.1).sum
          = (positions.enum.map fun x => Site.recencyWeight x.1).sum := by
        rw [henum, List.map_map]
        rfl
      have hN : ((positions.map Mjs.posTable).enum.map fun x => x.2 * Site.recencyWeight x.1).sum
          = (positions.enum.map fun x => Mjs.posTable x.2 * Site.recencyWeight x.1).sum := by
        rw [henum, List.map_map]
        rfl
      have hWpos : 0 < (positions.enum.map fun x => Site.recencyWeight x.1).sum := by
        apply sum_pos_of_mem
        · intro hmap
          rcases hl : positions with _ | ⟨p0, ps⟩
          · exact hne hl
          · rw [hl] at hmap
            simp [List.enum] at hmap
        · intro x hx
          obtain ⟨a, _, rfl⟩ := List.mem_map.mp hx
          exact recencyWeight_pos a.1
      have hcond : ((positions.all fun p =>
          decide (p ≤ 3) && decide (2 ≤ positions.length)) = true)
          ↔ (2 ≤ positions.length ∧ ∀ p ∈ positions, p ≤ 3) := by
        rw [List.all_eq_true]
        constructor
        · intro h
          obtain ⟨p0, hp0⟩ := List.exists_mem_of_ne_nil positions hne
          have h0 := h p0 hp0
          simp only [Bool.and_eq_true, decide_eq_true_eq] at h0
          refine ⟨h0.2, fun p hp => ?_⟩
          have h2 := h p hp
          simp only [Bool.and_eq_true, decide_eq_true_eq] at h2
          exact h2.1
        · intro hc p hp
          simp only [Bool.and_eq_true, decide_eq_true_eq]
          exact ⟨hc.2 p hp, hc.1⟩
      rw [hW, hN, if_pos hWpos]
      rw [Option.map_some']
      exact congrArg _ (congrArg _ (if_congr hcond rfl rfl))

/-- Claim C1 (corrected): for every scored entrant with at least one
non-null component, the reported weights are the exactly renormalised
base weights rounded to two decimals and so sum to 1.0 within 0.04 (eight
components at half a hundredth each) -- not within 1e-6; whenever every
component is null, total_score is 0 and every reported weight is 0. -/
theorem C1_weight_sums (now : ℤ) (data : RaceInput) :
    ∀ r ∈ (Site.scoreRace now data).runners,
      ((∃ c ∈ r.components, c.score.isSome = true) →
        |nonNullWeightSum r.components - 1| ≤ 1/25) ∧
      ((∀ c ∈ r.components, c.score = none) →
        r.total_score = 0 ∧ ∀ c ∈ r.components, c.weight = 0) := by
  intro r hr
  rw [scoreRace_runners] at hr
  obtain ⟨y, hy, hty, hcy⟩ := assignRanks_mem_ex hr
  rw [List.mem_mergeSort] at hy
  obtain ⟨runner, hrunner, rfl⟩ := List.mem_map.mp hy
  rw [hty, hcy]
  by_cases hav : (Site.availNames now runner data.runners data.meta).isEmpty = true
  · have he := scoreRunner_empty hav
    have hcomp : (Site.mkScored runner
        (Site.scoreRunner now runner data.runners data.meta).1
        ((Site.scoreRunner now runner data.runners data.meta).2.mkExp.getD {})).components
        = COMPONENT_ORDER.map defaultComp := by
      show compList (Site.scoreRunner now runner data.runners data.meta).1.components
          = COMPONENT_ORDER.map defaultComp
      rw [he]
      rfl
    rw [hcomp]
    constructor
    · intro hex
      obtain ⟨c, hc, hcs⟩ := hex
      obtain ⟨n, _, rfl⟩ := List.mem_map.mp hc
      simp [defaultComp] at hcs
    · intro _
      constructor
      · show (Site.scoreRunner now runner data.runners data.meta).1.total_score = 0
        rw [he]
      · intro c hc
        obtain ⟨n, _, rfl⟩ := List.mem_map.mp hc
        rfl
  · have hf := scoreRunner_full hav
    have hcomp : (Site.mkScored runner
        (Site.scoreRunner now runner data.runners data.meta).1
        ((Site.scoreRunner now runner data.runners data.meta).2.mkExp.getD {})).components
        = COMPONENT_ORDER.map (Site.compEntry now runner data.runners data.meta) := by
      show compList (Site.scoreRunner now runner data.runners data.meta).1.components
          = COMPONENT_ORDER.map (Site.compEntry now runner data.runners data.meta)
      rw [hf]
      rfl
    rw [hcomp]
    constructor
    · intro _
      have hone := redistrib_sum_one hav
      have hfilter : ((COMPONENT_ORDER.map
          (Site.compEntry now runner data.runners data.meta)).filter
          fun c => c.score.isSome) =
          (Site.availNames now runner data.runners data.meta).map
            (Site.compEntry now runner data.runners data.meta) := by
        rw [List.filter_map, Site.availNames]
        congr 1
        apply List.filter_congr
        intro n _
        show (Site.compEntry now runner data.runners data.meta n).score.isSome =
          (Site.rawScores now runner data.runners data.meta n).isSome
        rw [Site.compEntry]
        rcases hraw : Site.rawScores now runner data.runners data.meta n with _ | v
        · rfl
        · rfl
      have hweights : (((Site.availNames now runner data.runners data.meta).map
          (Site.compEntry now runner data.runners data.meta)).map fun c => c.weight)
          = (Site.availNames now runner data.runners data.meta).map
            (fun n => rd2 (WEIGHTS n /
              Site.availWeightSum now runner data.runners data.meta)) := by
        rw [List.map_map]
        apply List.map_congr_left
        intro n hn
        rw [Site.availNames] at hn
        have hsome := (List.mem_filter.mp hn).2
        show (Site.compEntry now runner data.runners data.meta n).weight = _
        rw [Site.compEntry]
        rcases hraw : Site.rawScores now runner data.runners data.meta n with _ | v
        · rw [hraw] at hsome
          simp at hsome
        · rfl
      have habs := sum_abs_bound (1/200)
        (Site.availNames now runner data.runners data.meta)
        (fun n : CompName =>
          rd2 (WEIGHTS n / Site.availWeightSum now runner data.runners data.meta))
        (fun n : CompName =>
          WEIGHTS n / Site.availWeightSum now runner data.runners data.meta)
        (fun n _ => abs_rd2_sub_le _)
      rw [hone] at habs
      have hlen : ((Site.availNames now runner data.runners data.meta).length : ℚ) ≤ 8 := by
        have h8 := List.length_filter_le
          (fun n => (Site.rawScores now runner data.runners data.meta n).isSome)
          COMPONENT_ORDER
        have hn8 : (Site.availNames now runner data.runners data.meta).length ≤ 8 := by
          rw [Site.availNames]
          exact le_trans h8 (by decide)
        exact_mod_cast hn8
      unfold nonNullWeightSum
      rw [hfilter, hweights]
      calc |((Site.availNames now runner data.runners data.meta).map
            (fun n => rd2 (WEIGHTS n /
              Site.availWeightSum now runner data.runners data.meta))).sum - 1|
          ≤ (Site.availNames now runner data.runners data.meta).length * (1/200) := habs
        _ ≤ 8 * (1/200) := by
            have h0 : (0:ℚ) ≤ 1/200 := by norm_num
            exact mul_le_mul_of_nonneg_right hlen h0
        _ = 1/25 := by norm_num
    · intro hall
      exfalso
      rcases hl : Site.availNames now runner data.runners data.meta with _ | ⟨n0, ns⟩
      · rw [hl] at hav
        exact hav rfl
      · have hn0 : n0 ∈ Site.availNames now runner data.runners data.meta := by
          rw [hl]
          exact List.mem_cons_self n0 ns
        rw [Site.availNames] at hn0
        have hsome := (List.mem_filter.mp hn0).2
        have hn0o : n0 ∈ COMPONENT_ORDER := (List.mem_filter.mp hn0).1
        have hcmem : Site.compEntry now runner data.runners data.meta n0 ∈
            COMPONENT_ORDER.map (Site.compEntry now runner data.runners data.meta) :=
          List.mem_map_of_mem _ hn0o
        have hnone := hall _ hcmem
        rw [Site.compEntry] at hnone
        rcases hraw : Site.rawScores now runner data.runners data.meta n0 with _ | v
        · rw [hraw] at hsome
          simp at hsome
        · rw [hraw] at hnone
          simp at hnone

set_option maxRecDepth 8000 in
theorem C1_weight_sums_witness :
    |nonNullWeightSum ((Site.scoreRace 0 raceM).runners.headI).components - 1| ≤ 1/25 :=
  ((C1_weight_sums 0 raceM ((Site.scoreRace 0 raceM).runners.headI)
      (by with_unfolding_all decide)).1 (by with_unfolding_all decide))

set_option maxRecDepth 8000 in
/-- Counterexample to C1 as literally stated: for runnerA in the race
[runnerA, runnerB] (distance 0m 8f), exactly four components are non-null
and the displayed 2-decimal weights sum to 0.99, which is not within 1e-6
of 1.0. -/
theorem C1_cex :
    (((Site.mkScored runnerA (Site.scoreRunner 0 runnerA [runnerA, runnerB] meta1).1
        ((Site.scoreRunner 0 runnerA [runnerA, runnerB] meta1).2.mkExp.getD {})).components.filter
      fun c => c.score.isSome).length = 4 ∧
    nonNullWeightSum (Site.mkScored runnerA
        (Site.scoreRunner 0 runnerA [runnerA, runnerB] meta1).1
        ((Site.scoreRunner 0 runnerA [runnerA, runnerB] meta1).2.mkExp.getD {})).components
      = 99/100 ∧
    ¬|(99 : ℚ)/100 - 1| ≤ 1/1000000) := by
  refine ⟨?_, ?_, ?_⟩ <;> with_unfolding_all decide
